import Mathlib

/-!
Verification of the RAG chat pipeline of the wealth-coach backend.

The definitions below are shallow embeddings of the Python source:
`backend/services/rag/retriever.py`, `backend/services/rag/embeddings.py`,
`backend/services/llm/client.py` and `backend/api/websocket/chat_ws.py`.
Python strings are modelled as lists of characters (`Str`), so that
`len`, slicing and concatenation agree with Python code-point semantics.
Similarity scores are modelled as rationals (the comparison logic of the
source is preserved exactly; IEEE rounding is irrelevant to the ordering
properties proved here).  Fallible collaborators (embedding provider,
vector store, Redis, LLM provider) are modelled as `Except`/`Option`
valued parameters.
-/

namespace WealthCoach

/-- Character-list model of a Python string. -/
abbrev Str := List Char

/-- Model of Python str.strip: drop whitespace from both ends. -/
def strStrip (s : Str) : Str :=
  ((s.dropWhile Char.isWhitespace).reverse.dropWhile Char.isWhitespace).reverse

/-- Raw search hit as returned by PGVectorStore.similarity_search:
a dict with content, metadata, similarity and id. -/
structure RawSearchResult where
  content : Str
  metadata : List (Str × Str)
  similarity : ℚ
  id : Option Str
deriving DecidableEq

/-- RetrievedDocument dataclass of retriever.py. -/
structure RetrievedDocument where
  content : Str
  metadata : List (Str × Str)
  score : ℚ
  source : Str
  chunk_id : Option Str
deriving DecidableEq

/-- RetrievalResult dataclass of retriever.py. -/
structure RetrievalResult where
  query : Str
  documents : List RetrievedDocument
  total_found : Nat
  context : Str
  sources : List Str
deriving DecidableEq

/-- Python dict lookup on the metadata dict (first binding wins). -/
def metaGet (key : Str) : List (Str × Str) → Option Str
  | [] => none
  | (k, v) :: rest => if k = key then some v else metaGet key rest

/-- metadata.get with the "Unknown" default used by _process_results. -/
def sourceOf (m : List (Str × Str)) : Str :=
  (metaGet ("source".data) m).getD ("Unknown".data)

/-- Construction of one RetrievedDocument from a raw search hit,
as in the append of _process_results. -/
def mkRetrievedDocument (r : RawSearchResult) : RetrievedDocument :=
  { content := r.content
    metadata := r.metadata
    score := r.similarity
    source := sourceOf r.metadata
    chunk_id := r.id }

/-- RAGRetriever._process_results: walk the raw hits in order, skip any
hit whose similarity is below the threshold (defensive re-check), and
convert the rest. -/
def process_results (threshold : ℚ) : List RawSearchResult → List RetrievedDocument
  | [] => []
  | r :: rest =>
    if r.similarity < threshold then process_results threshold rest
    else mkRetrievedDocument r :: process_results threshold rest

/-- documents.sort with key score, reverse=True: a stable descending
sort by score. -/
def sortDocs (docs : List RetrievedDocument) : List RetrievedDocument :=
  docs.mergeSort (fun a b => decide (b.score ≤ a.score))

/-- The near-duplicate key of _rank_and_filter: the first 200 characters
of the content, stripped. -/
def contentKey (d : RetrievedDocument) : Str :=
  strStrip (d.content.take 200)

/-- The dedup loop of _rank_and_filter: `seen` is the set of content
keys already emitted. -/
def dedupDocs (seen : List Str) : List RetrievedDocument → List RetrievedDocument
  | [] => []
  | d :: rest =>
    if contentKey d ∈ seen then dedupDocs seen rest
    else d :: dedupDocs (contentKey d :: seen) rest

/-- RAGRetriever._rank_and_filter: sort descending by score, then drop
near-duplicates keeping the first occurrence. -/
def rank_and_filter (docs : List RetrievedDocument) : List RetrievedDocument :=
  dedupDocs [] (sortDocs docs)

/-- Specification-side restatement of deduplication, following the
spec's words: keep only the first occurrence of each first-200-character
trimmed prefix, in list order.  Compared against `dedupDocs` for the
refinement claim. -/
def keepFirstOccurrenceSpec : List RetrievedDocument → List RetrievedDocument
  | [] => []
  | d :: rest =>
    d :: keepFirstOccurrenceSpec (rest.filter (fun e => decide (contentKey e ≠ contentKey d)))
termination_by l => l.length
decreasing_by
  simp only [List.length_cons]
  exact Nat.lt_succ_of_le (List.length_filter_le _ _)

/-- The f-string part emitted per document by _build_context:
`[Source i: source]` newline content newline. -/
def mkPart (i : Nat) (d : RetrievedDocument) : Str :=
  ("[Source ".data) ++ (toString i).data ++ (": ".data) ++ d.source
    ++ ("]".data) ++ ['\n'] ++ d.content ++ ['\n']

/-- The accumulation loop of _build_context: `i` is the 1-based source
counter, `cur` the accumulated length of the full parts taken so far.
The first part that would push past maxLen is sliced to the remaining
budget and suffixed with an ellipsis when more than 100 characters
remain, else dropped; the loop stops either way. -/
def buildParts (maxLen : Nat) : Nat → Nat → List RetrievedDocument → List Str
  | _, _, [] => []
  | i, cur, d :: rest =>
    let part := mkPart i d
    if maxLen < cur + part.length then
      let remaining := maxLen - cur
      if 100 < remaining then [part.take remaining ++ ("...".data)] else []
    else part :: buildParts maxLen (i + 1) (cur + part.length) rest

/-- Python sep.join. -/
def joinSep (sep : Str) : List Str → Str
  | [] => []
  | [p] => p
  | p :: q :: rest => p ++ sep ++ joinSep sep (q :: rest)

/-- RAGRetriever._build_context: empty on no documents, else the parts
joined by a newline. -/
def build_context (maxLen : Nat) (docs : List RetrievedDocument) : Str :=
  if docs = [] then [] else joinSep ['\n'] (buildParts maxLen 1 0 docs)

/-- The source-extraction loop of _extract_sources. -/
def extractSourcesAux (seen : List Str) : List RetrievedDocument → List Str
  | [] => []
  | d :: rest =>
    if d.source ∈ seen then extractSourcesAux seen rest
    else d.source :: extractSourcesAux (d.source :: seen) rest

/-- RAGRetriever._extract_sources: unique sources in first-seen order. -/
def extract_sources (docs : List RetrievedDocument) : List Str :=
  extractSourcesAux [] docs

/-- Retriever configuration (top_k, similarity_threshold,
max_context_length) fixed at construction. -/
structure RetrieverConfig where
  top_k : Nat
  similarity_threshold : ℚ
  max_context_length : Nat
deriving DecidableEq

/-- Python `x or default` on an optional int argument: None and 0 are
falsy and select the default. -/
def orDefaultNat (x : Option Nat) (d : Nat) : Nat :=
  match x with
  | some v => if v = 0 then d else v
  | none => d

/-- The empty RetrievalResult returned by the except branch of
RAGRetriever.retrieve. -/
def emptyResult (query : Str) : RetrievalResult :=
  { query := query, documents := [], total_found := 0, context := [], sources := [] }

/-- RAGRetriever.retrieve: embed the query, over-fetch 2*k hits at the
configured threshold, filter/rank/dedup/truncate, then build context and
sources.  A failure of the embedding step or of the store search is
caught and yields the empty result. -/
def retrieve (cfg : RetrieverConfig)
    (embedQuery : Except Unit (List ℚ))
    (similaritySearch : List ℚ → Nat → ℚ → Except Unit (List RawSearchResult))
    (query : Str) (topKArg : Option Nat) : RetrievalResult :=
  let k := orDefaultNat topKArg cfg.top_k
  match embedQuery with
  | .error _ => emptyResult query
  | .ok qe =>
    match similaritySearch qe (k * 2) cfg.similarity_threshold with
    | .error _ => emptyResult query
    | .ok rs =>
      let documents := (rank_and_filter (process_results cfg.similarity_threshold rs)).take k
      { query := query
        documents := documents
        total_found := documents.length
        context := build_context cfg.max_context_length documents
        sources := extract_sources documents }

/-! Lemmas about the retriever pipeline. -/

theorem process_results_eq_filter_map (threshold : ℚ) (rs : List RawSearchResult) :
    process_results threshold rs
      = (rs.filter (fun r => decide (threshold ≤ r.similarity))).map mkRetrievedDocument := by
  induction rs with
  | nil => rfl
  | cons r rest ih =>
    by_cases h : r.similarity < threshold
    · simp [process_results, h, not_le.mpr h, ih]
    · simp [process_results, h, not_lt.mp h, ih]

theorem mem_of_mem_dedupDocs {d : RetrievedDocument} :
    ∀ (seen : List Str) (l : List RetrievedDocument), d ∈ dedupDocs seen l → d ∈ l := by
  intro seen l
  induction l generalizing seen with
  | nil => intro h; simp [dedupDocs] at h
  | cons e rest ih =>
    intro hd
    simp only [dedupDocs] at hd
    by_cases h : contentKey e ∈ seen
    · rw [if_pos h] at hd
      exact List.mem_cons_of_mem _ (ih _ hd)
    · rw [if_neg h] at hd
      rcases List.mem_cons.mp hd with h1 | h2
      · exact h1 ▸ List.mem_cons_self _ _
      · exact List.mem_cons_of_mem _ (ih _ h2)

theorem contentKey_not_mem_seen {d : RetrievedDocument} :
    ∀ (seen : List Str) (l : List RetrievedDocument), d ∈ dedupDocs seen l →
      contentKey d ∉ seen := by
  intro seen l
  induction l generalizing seen with
  | nil => intro h; simp [dedupDocs] at h
  | cons e rest ih =>
    intro hd
    simp only [dedupDocs] at hd
    by_cases h : contentKey e ∈ seen
    · rw [if_pos h] at hd
      exact ih _ hd
    · rw [if_neg h] at hd
      rcases List.mem_cons.mp hd with h1 | h2
      · exact h1 ▸ h
      · intro hmem
        exact ih _ h2 (List.mem_cons_of_mem _ hmem)

theorem dedupDocs_pairwise :
    ∀ (seen : List Str) (l : List RetrievedDocument),
      (dedupDocs seen l).Pairwise (fun a b => contentKey a ≠ contentKey b) := by
  intro seen l
  induction l generalizing seen with
  | nil => simp [dedupDocs]
  | cons e rest ih =>
    simp only [dedupDocs]
    by_cases h : contentKey e ∈ seen
    · rw [if_pos h]; exact ih _
    · rw [if_neg h]
      refine List.Pairwise.cons ?_ (ih _)
      intro b hb
      have hnot := contentKey_not_mem_seen _ _ hb
      intro heq
      exact hnot (heq ▸ List.mem_cons_self _ _)

theorem dedupDocs_eq_keepFirst :
    ∀ (l : List RetrievedDocument) (seen : List Str),
      dedupDocs seen l
        = keepFirstOccurrenceSpec (l.filter (fun e => decide (contentKey e ∉ seen))) := by
  intro l
  induction l with
  | nil => intro seen; simp [dedupDocs, keepFirstOccurrenceSpec]
  | cons d rest ih =>
    intro seen
    by_cases h : contentKey d ∈ seen
    · have hfilter : List.filter (fun e => decide (contentKey e ∉ seen)) (d :: rest)
          = List.filter (fun e => decide (contentKey e ∉ seen)) rest := by
        simp [List.filter_cons, h]
      simp only [dedupDocs, if_pos h, hfilter]
      exact ih seen
    · have hfilter : List.filter (fun e => decide (contentKey e ∉ seen)) (d :: rest)
          = d :: List.filter (fun e => decide (contentKey e ∉ seen)) rest := by
        simp [List.filter_cons, h]
      simp only [dedupDocs, if_neg h, hfilter]
      rw [ih (contentKey d :: seen), keepFirstOccurrenceSpec, List.filter_filter]
      congr 2
      apply List.filter_congr
      intro e _
      by_cases he : contentKey e = contentKey d
      · simp [he, h]
      · simp [he]

theorem rank_and_filter_eq_spec (docs : List RetrievedDocument) :
    rank_and_filter docs = keepFirstOccurrenceSpec (sortDocs docs) := by
  rw [rank_and_filter, dedupDocs_eq_keepFirst]
  congr 1
  apply List.filter_eq_self.mpr
  intro e _
  simp

theorem buildParts_bound (maxLen : Nat) (docs : List RetrievedDocument) :
    ∀ i cur, cur ≤ maxLen →
      (buildParts maxLen i cur docs).length ≤ docs.length ∧
      ((buildParts maxLen i cur docs).map List.length).sum + cur ≤ maxLen + 3 := by
  induction docs with
  | nil =>
    intro i cur h
    simp only [buildParts, List.length_nil, List.map_nil, List.sum_nil]
    omega
  | cons d rest ih =>
    intro i cur h
    simp only [buildParts]
    by_cases hover : maxLen < cur + (mkPart i d).length
    · rw [if_pos hover]
      by_cases hrem : 100 < maxLen - cur
      · rw [if_pos hrem]
        have hdots : ("...".data).length = 3 := rfl
        have htake : ((mkPart i d).take (maxLen - cur)).length ≤ maxLen - cur := by
          simp [List.length_take]
        constructor
        · simp
        · simp only [List.map_cons, List.map_nil, List.sum_cons, List.sum_nil,
            List.length_append, hdots]
          omega
      · rw [if_neg hrem]
        constructor
        · simp
        · simp only [List.map_nil, List.sum_nil]
          omega
    · rw [if_neg hover]
      have hcur : cur + (mkPart i d).length ≤ maxLen := not_lt.mp hover
      obtain ⟨ih1, ih2⟩ := ih (i + 1) (cur + (mkPart i d).length) hcur
      constructor
      · simpa using Nat.succ_le_succ ih1
      · simp only [List.map_cons, List.sum_cons]
        omega

theorem joinSep_newline_length (p : Str) (ps : List Str) :
    (joinSep ['\n'] (p :: ps)).length + 1
      = ((p :: ps).map List.length).sum + (p :: ps).length := by
  induction ps generalizing p with
  | nil => simp [joinSep]
  | cons q rest ih =>
    have h := ih q
    simp only [joinSep, List.length_append, List.map_cons, List.sum_cons,
      List.length_cons, List.length_nil] at h ⊢
    omega

theorem build_context_length_bound (maxLen : Nat) (docs : List RetrievedDocument) :
    (build_context maxLen docs).length ≤ maxLen + docs.length + 2 := by
  unfold build_context
  by_cases hd : docs = []
  · simp [hd]
  · rw [if_neg hd]
    obtain ⟨h1, h2⟩ := buildParts_bound maxLen docs 1 0 (Nat.zero_le _)
    cases hparts : buildParts maxLen 1 0 docs with
    | nil => simp [joinSep]
    | cons p ps =>
      have h3 := joinSep_newline_length p ps
      rw [hparts] at h1 h2
      omega

/-! Claim theorems about the retriever. -/

/-- C2: if the query-embedding step or the vector-store search fails,
retrieve does not raise; it returns a RetrievalResult whose documents
list is empty, whose context is the empty string and whose sources list
is empty. -/
theorem retrieve_graceful_on_failure (cfg : RetrieverConfig)
    (embedQuery : Except Unit (List ℚ))
    (similaritySearch : List ℚ → Nat → ℚ → Except Unit (List RawSearchResult))
    (query : Str) (topKArg : Option Nat)
    (h : embedQuery = Except.error () ∨ ∀ qe, embedQuery = Except.ok qe →
        similaritySearch qe (orDefaultNat topKArg cfg.top_k * 2) cfg.similarity_threshold
          = Except.error ()) :
    retrieve cfg embedQuery similaritySearch query topKArg = emptyResult query := by
  cases embedQuery with
  | error u => rfl
  | ok qe =>
    rcases h with h1 | h2
    · cases h1
    · have hs := h2 qe rfl
      unfold retrieve
      simp only [hs]

/-- Witness for C2 at a vector store that fails on every call. -/
theorem retrieve_graceful_on_failure_witness :
    retrieve ⟨5, 7/10, 2000⟩ (Except.ok [(1 : ℚ)])
      (fun _ _ _ => Except.error ()) ("any query".data) (some 5)
      = emptyResult ("any query".data) :=
  retrieve_graceful_on_failure _ _ _ _ _ (Or.inr fun _ _ => rfl)

/-- C8: every document in a RetrievalResult's documents list has score
at least similarity_threshold, and process_results re-checks the
threshold on every raw store result, dropping any candidate below it. -/
theorem retrieve_threshold_invariant (cfg : RetrieverConfig)
    (embedQuery : Except Unit (List ℚ))
    (similaritySearch : List ℚ → Nat → ℚ → Except Unit (List RawSearchResult))
    (query : Str) (topKArg : Option Nat) :
    (∀ d ∈ (retrieve cfg embedQuery similaritySearch query topKArg).documents,
      cfg.similarity_threshold ≤ d.score)
    ∧ ∀ (θ : ℚ) (rs : List RawSearchResult), process_results θ rs
        = (rs.filter (fun r => decide (θ ≤ r.similarity))).map mkRetrievedDocument := by
  refine ⟨?_, fun θ rs => process_results_eq_filter_map θ rs⟩
  intro d hd
  cases embedQuery with
  | error u => simp [retrieve, emptyResult] at hd
  | ok qe =>
    cases hs : similaritySearch qe (orDefaultNat topKArg cfg.top_k * 2)
        cfg.similarity_threshold with
    | error u => simp [retrieve, hs, emptyResult] at hd
    | ok rs =>
      simp only [retrieve, hs] at hd
      have h1 : d ∈ rank_and_filter (process_results cfg.similarity_threshold rs) :=
        List.mem_of_mem_take hd
      have h2 : d ∈ sortDocs (process_results cfg.similarity_threshold rs) :=
        mem_of_mem_dedupDocs _ _ h1
      rw [sortDocs] at h2
      have h3 : d ∈ process_results cfg.similarity_threshold rs :=
        (List.mergeSort_perm _ _).mem_iff.mp h2
      rw [process_results_eq_filter_map] at h3
      obtain ⟨r, hr, rfl⟩ := List.mem_map.mp h3
      have hkeep := List.of_mem_filter hr
      simpa [mkRetrievedDocument] using of_decide_eq_true hkeep

/-- A raw store hit used to witness the threshold claim. -/
def rawHitW : RawSearchResult :=
  { content := "alpha".data, metadata := [("source".data, "kb".data)],
    similarity := mkRat 3 4, id := none }

/-- A concrete retrieval whose store returns a single hit above the
threshold. -/
def retrieveW : RetrievalResult :=
  retrieve ⟨5, mkRat 1 2, 2000⟩ (Except.ok []) (fun _ _ _ => Except.ok [rawHitW])
    ("q".data) none

theorem retrieveW_documents : retrieveW.documents = [mkRetrievedDocument rawHitW] := by
  have hctx : retrieveW.documents
      = (rank_and_filter (process_results (mkRat 1 2) [rawHitW])).take 5 := rfl
  have hp : process_results (mkRat 1 2) [rawHitW] = [mkRetrievedDocument rawHitW] := by decide
  rw [hctx, hp, rank_and_filter, sortDocs, List.mergeSort_singleton]
  decide

/-- Witness for C8 at the concrete retrieval retrieveW. -/
theorem retrieve_threshold_invariant_witness :
    mkRat 1 2 ≤ (mkRetrievedDocument rawHitW).score := by
  have hmem : mkRetrievedDocument rawHitW ∈ retrieveW.documents := by
    rw [retrieveW_documents]
    exact List.mem_singleton.mpr rfl
  exact (retrieve_threshold_invariant ⟨5, mkRat 1 2, 2000⟩ (Except.ok [])
    (fun _ _ _ => Except.ok [rawHitW]) ("q".data) none).1 _ hmem

/-- C7: no two documents of a RetrievalResult share an identical
first-200-character trimmed content prefix; the dedup step keeps exactly
the first occurrence of each prefix in the stable descending-score
order produced by the sort. -/
theorem retrieve_dedup_invariant (cfg : RetrieverConfig)
    (embedQuery : Except Unit (List ℚ))
    (similaritySearch : List ℚ → Nat → ℚ → Except Unit (List RawSearchResult))
    (query : Str) (topKArg : Option Nat) :
    ((retrieve cfg embedQuery similaritySearch query topKArg).documents).Pairwise
      (fun a b => contentKey a ≠ contentKey b)
    ∧ (∀ docs, rank_and_filter docs = keepFirstOccurrenceSpec (sortDocs docs))
    ∧ ∀ docs : List RetrievedDocument,
        (sortDocs docs).Pairwise (fun a b => b.score ≤ a.score) := by
  refine ⟨?_, rank_and_filter_eq_spec, ?_⟩
  · cases embedQuery with
    | error u => simp [retrieve, emptyResult]
    | ok qe =>
      cases hs : similaritySearch qe (orDefaultNat topKArg cfg.top_k * 2)
          cfg.similarity_threshold with
      | error u => simp [retrieve, hs, emptyResult]
      | ok rs =>
        simp only [retrieve, hs]
        exact (dedupDocs_pairwise _ _).sublist (List.take_sublist _ _)
  · intro docs
    have htrans : ∀ (a b c : RetrievedDocument),
        decide (b.score ≤ a.score) = true → decide (c.score ≤ b.score) = true →
          decide (c.score ≤ a.score) = true := by
      intro a b c hab hbc
      exact decide_eq_true (le_trans (of_decide_eq_true hbc) (of_decide_eq_true hab))
    have htotal : ∀ (a b : RetrievedDocument),
        (decide (b.score ≤ a.score) || decide (a.score ≤ b.score)) = true := by
      intro a b
      rcases le_total b.score a.score with h | h <;> simp [h]
    have hsorted := List.sorted_mergeSort htrans htotal docs
    exact hsorted.imp fun hab => of_decide_eq_true hab

/-- C1 (amended): the context string length is bounded by
max_context_length plus the number of included documents plus 2: the
joining newlines and the ellipsis appended to a truncated document are
not counted against the budget by the source. -/
theorem retrieve_context_budget (cfg : RetrieverConfig)
    (embedQuery : Except Unit (List ℚ))
    (similaritySearch : List ℚ → Nat → ℚ → Except Unit (List RawSearchResult))
    (query : Str) (topKArg : Option Nat) :
    (retrieve cfg embedQuery similaritySearch query topKArg).context.length
      ≤ cfg.max_context_length
        + (retrieve cfg embedQuery similaritySearch query topKArg).documents.length + 2 := by
  cases embedQuery with
  | error u => simp [retrieve, emptyResult]
  | ok qe =>
    cases hs : similaritySearch qe (orDefaultNat topKArg cfg.top_k * 2)
        cfg.similarity_threshold with
    | error u => simp [retrieve, hs, emptyResult]
    | ok rs =>
      simp only [retrieve, hs]
      exact build_context_length_bound _ _

/-- The raw store hit driving the context-budget counterexample: its
part exceeds a 110-character budget with more than 100 characters of
budget remaining. -/
def rawC1 : RawSearchResult :=
  { content := List.replicate 100 'a', metadata := [("source".data, "s".data)],
    similarity := mkRat 9 10, id := none }

/-- The concrete retrieval of the context-budget counterexample. -/
def retrieveC1 : RetrievalResult :=
  retrieve ⟨5, mkRat 7 10, 110⟩ (Except.ok []) (fun _ _ _ => Except.ok [rawC1])
    ("q".data) (some 5)

/-- Counterexample to C1 as stated: with max_context_length 110 and a
single surviving 100-character document, the built context has length
113 — the truncated prefix fills the whole remaining budget and the
appended ellipsis pushes past it. -/
theorem retrieve_context_budget_counterexample :
    retrieveC1.context.length = 113 ∧ ¬ retrieveC1.context.length ≤ 110 := by
  have hctx : retrieveC1.context
      = build_context 110
          ((rank_and_filter (process_results (mkRat 7 10) [rawC1])).take 5) := rfl
  have hp : process_results (mkRat 7 10) [rawC1] = [mkRetrievedDocument rawC1] := by decide
  have hrf : rank_and_filter (process_results (mkRat 7 10) [rawC1])
      = [mkRetrievedDocument rawC1] := by
    rw [hp, rank_and_filter, sortDocs, List.mergeSort_singleton]
    decide
  rw [hctx, hrf]
  decide

/-! Embedding of chat_ws.py: SessionData, the per-user connection
registry, and handle_chat_message. -/

/-- One conversation-history entry: a dict with role and content. -/
structure ChatMsg where
  role : String
  content : String
deriving DecidableEq

/-- SessionData of chat_ws.py.  Of the cached user_profile dict only
the context string consulted by handle_chat_message is modelled. -/
structure SessionData where
  user_id : String
  user_profile_context : String
  conversation_history : List ChatMsg
  message_count : Nat
deriving DecidableEq

/-- SessionData.add_message: append to the history, keep only the last
10 entries, bump the message counter. -/
def add_message (s : SessionData) (role content : String) : SessionData :=
  let h := s.conversation_history ++ [ChatMsg.mk role content]
  { s with
    conversation_history := if h.length > 10 then h.drop (h.length - 10) else h
    message_count := s.message_count + 1 }

/-- The session constructed at connection time: empty history, zero
message count. -/
def initialSession (uid ctx : String) : SessionData :=
  { user_id := uid, user_profile_context := ctx, conversation_history := [],
    message_count := 0 }

/-- A sequence of add_message calls applied in order. -/
def runAddMessages (s : SessionData) : List (String × String) → SessionData
  | [] => s
  | (r, c) :: rest => runAddMessages (add_message s r c) rest

/-- The last n elements of a list: Python l[-n:]. -/
def takeLast {α : Type} (n : Nat) (l : List α) : List α :=
  l.drop (l.length - n)

theorem runAddMessages_append (s : SessionData) (msgs : List (String × String))
    (r c : String) :
    runAddMessages s (msgs ++ [(r, c)]) = add_message (runAddMessages s msgs) r c := by
  induction msgs generalizing s with
  | nil => rfl
  | cons p rest ih =>
    cases p
    simp only [List.cons_append, runAddMessages]
    exact ih _

theorem add_message_history (s : SessionData) (r c : String) :
    (add_message s r c).conversation_history
      = takeLast 10 (s.conversation_history ++ [ChatMsg.mk r c]) := by
  unfold add_message takeLast
  by_cases h : (s.conversation_history ++ [ChatMsg.mk r c]).length > 10
  · simp only [if_pos h]
  · simp only [if_neg h]
    have hz : (s.conversation_history ++ [ChatMsg.mk r c]).length - 10 = 0 := by omega
    rw [hz, List.drop_zero]

theorem takeLast_append_singleton {α : Type} (n : Nat) (hn : 1 ≤ n) (l : List α) (a : α) :
    takeLast n (takeLast n l ++ [a]) = takeLast n (l ++ [a]) := by
  unfold takeLast
  by_cases h : l.length ≤ n
  · have hz : l.length - n = 0 := by omega
    rw [hz, List.drop_zero]
  · push_neg at h
    have h1 : (l.drop (l.length - n)).length = n := by
      rw [List.length_drop]
      omega
    have h2 : ((l.drop (l.length - n)) ++ [a]).length - n = 1 := by
      rw [List.length_append, h1]
      simp
    have h3 : (l ++ [a]).length - n = (l.length + 1) - n := by
      rw [List.length_append]
      rfl
    rw [h2, h3]
    have h4 : 1 ≤ (l.drop (l.length - n)).length := by omega
    rw [List.drop_append_of_le_length h4, List.drop_append_of_le_length (by omega),
      List.drop_drop]
    congr 2
    omega

theorem runAddMessages_history (uid ctx : String) (msgs : List (String × String)) :
    (runAddMessages (initialSession uid ctx) msgs).conversation_history
      = takeLast 10 (msgs.map fun rc => ChatMsg.mk rc.1 rc.2) := by
  induction msgs using List.reverseRecOn with
  | nil => rfl
  | append_singleton rest p ih =>
    cases p with
    | mk r c =>
      rw [runAddMessages_append, add_message_history, ih, List.map_append]
      simpa using takeLast_append_singleton 10 (by omega)
        (rest.map fun rc => ChatMsg.mk rc.1 rc.2) (ChatMsg.mk r c)

/-- C4: after any sequence of add_message calls the history holds at
most 10 entries, and once more than 10 messages have been added it is
exactly the most recent 10, oldest evicted first. -/
theorem history_bound_invariant (uid ctx : String) (msgs : List (String × String)) :
    (runAddMessages (initialSession uid ctx) msgs).conversation_history.length ≤ 10
    ∧ (10 < msgs.length →
        (runAddMessages (initialSession uid ctx) msgs).conversation_history
          = (msgs.map fun rc => ChatMsg.mk rc.1 rc.2).drop (msgs.length - 10)) := by
  have h := runAddMessages_history uid ctx msgs
  constructor
  · rw [h]
    unfold takeLast
    rw [List.length_drop]
    omega
  · intro _
    rw [h]
    unfold takeLast
    rw [List.length_map]

/-- Eleven consecutive chat-turn messages. -/
def msgs11 : List (String × String) :=
  [("user", "m1"), ("assistant", "m2"), ("user", "m3"), ("assistant", "m4"),
   ("user", "m5"), ("assistant", "m6"), ("user", "m7"), ("assistant", "m8"),
   ("user", "m9"), ("assistant", "m10"), ("user", "m11")]

/-- Witness for C4 after 11 add_message calls. -/
theorem history_bound_invariant_witness :
    (runAddMessages (initialSession "u" "") msgs11).conversation_history.length ≤ 10
    ∧ (runAddMessages (initialSession "u" "") msgs11).conversation_history
        = (msgs11.map fun rc => ChatMsg.mk rc.1 rc.2).drop (msgs11.length - 10) := by
  obtain ⟨h1, h2⟩ := history_bound_invariant "u" "" msgs11
  exact ⟨h1, h2 (by decide)⟩

/-- The per-user active_connections registry: user id to the set of
live connections; a user absent from the dict is the empty set. -/
abbrev ConnRegistry := String → Finset Nat

/-- Outcome of ConnectionManager.connect: the updated registry, the
returned boolean, and the close code and reason sent on refusal. -/
structure ConnectOutcome where
  registry : ConnRegistry
  accepted : Bool
  closeReason : Option (Nat × String)

/-- ConnectionManager.connect: refuse with close code 1008 and reason
"Max connections reached" when the user already has
WS_MAX_CONNECTIONS_PER_USER connections, else add the connection to the
user's set and register the session. -/
def ws_connect (maxConn : Nat) (reg : ConnRegistry) (user : String) (ws : Nat) :
    ConnectOutcome :=
  if maxConn ≤ (reg user).card then
    { registry := reg, accepted := false,
      closeReason := some (1008, "Max connections reached") }
  else
    { registry := fun u => if u = user then insert ws (reg u) else reg u,
      accepted := true, closeReason := none }

/-- ConnectionManager.disconnect: discard the connection from the
user's set (deleting the emptied key equals leaving the empty set). -/
def ws_disconnect (reg : ConnRegistry) (user : String) (ws : Nat) : ConnRegistry :=
  fun u => if u = user then (reg u).erase ws else reg u

/-- Registry states reachable from the empty registry by any
interleaving of connect and disconnect events. -/
inductive ReachableRegistry (maxConn : Nat) : ConnRegistry → Prop
  | init : ReachableRegistry maxConn (fun _ => (∅ : Finset Nat))
  | connect (reg : ConnRegistry) (user : String) (ws : Nat) :
      ReachableRegistry maxConn reg →
      ReachableRegistry maxConn (ws_connect maxConn reg user ws).registry
  | disconnect (reg : ConnRegistry) (user : String) (ws : Nat) :
      ReachableRegistry maxConn reg →
      ReachableRegistry maxConn (ws_disconnect reg user ws)

/-- C9: every reachable registry state holds at most maxConn
connections per user, and a connect at the limit refuses with an
explicit reason and leaves the registry unchanged. -/
theorem connection_limit_invariant (maxConn : Nat) (reg : ConnRegistry)
    (h : ReachableRegistry maxConn reg) :
    (∀ u, (reg u).card ≤ maxConn)
    ∧ ∀ (user : String) (ws : Nat), maxConn ≤ (reg user).card →
        (ws_connect maxConn reg user ws).registry = reg
        ∧ (ws_connect maxConn reg user ws).accepted = false
        ∧ (ws_connect maxConn reg user ws).closeReason
            = some (1008, "Max connections reached") := by
  constructor
  · induction h with
    | init => intro u; simp
    | connect reg user ws hr ih =>
      intro u
      unfold ws_connect
      by_cases hc : maxConn ≤ (reg user).card
      · rw [if_pos hc]
        exact ih u
      · rw [if_neg hc]
        show (if u = user then insert ws (reg u) else reg u).card ≤ maxConn
        by_cases hu : u = user
        · subst hu
          have := Finset.card_insert_le ws (reg u)
          rw [if_pos rfl]
          omega
        · rw [if_neg hu]
          exact ih u
    | disconnect reg user ws hr ih =>
      intro u
      unfold ws_disconnect
      by_cases hu : u = user
      · subst hu
        rw [if_pos rfl]
        exact le_trans Finset.card_erase_le (ih u)
      · rw [if_neg hu]
        exact ih u
  · intro user ws hge
    unfold ws_connect
    rw [if_pos hge]
    exact ⟨rfl, rfl, rfl⟩

/-- The registry after three connections of the same user at limit 3. -/
def reg3 : ConnRegistry :=
  (ws_connect 3 ((ws_connect 3 ((ws_connect 3 (fun _ => (∅ : Finset Nat))
    "alice" 1).registry) "alice" 2).registry) "alice" 3).registry

/-- Witness for C9 at a concrete reachable registry. -/
theorem connection_limit_invariant_witness : (reg3 "alice").card ≤ 3 := by
  refine (connection_limit_invariant 3 reg3 ?_).1 "alice"
  exact ReachableRegistry.connect _ _ _ (ReachableRegistry.connect _ _ _
    (ReachableRegistry.connect _ _ _ ReachableRegistry.init))

/-- Python str.strip on a Lean String, computed on the character
list. -/
def pyStrip (s : String) : String :=
  String.mk (strStrip s.data)

/-- Server-to-client events emitted during one chat turn. -/
inductive WsEvent
  | errorEvent (message : String)
  | responseEvent (content : String) (done : Bool) (cached : Option Bool)
deriving DecidableEq

/-- Cumulative texts sent by the streaming loop: element i is the
concatenation of the first i+1 chunks (accumulated so far). -/
def cumulative (acc : String) : List String → List String
  | [] => []
  | c :: rest => (acc ++ c) :: cumulative (acc ++ c) rest

/-- One chat turn of handle_chat_message.  Collaborator outcomes are
passed as values: the session looked up for the socket, the raw message
content, the outcome of the Redis lookup of the conversation-aware
cache key (raise, miss, or hit), the chunks yielded by chat_stream
together with an error raised mid-stream if any, and the outcome of the
Redis cache store.  Returns the events sent on the socket and the
session afterwards. -/
def handle_chat_message (sessionOpt : Option SessionData) (rawContent : String)
    (cacheLookup : Except Unit (Option String))
    (streamChunks : List String) (streamError : Option Unit)
    (cacheStore : Except Unit Unit) :
    List WsEvent × Option SessionData :=
  match sessionOpt with
  | none => ([WsEvent.errorEvent "Session not found"], none)
  | some session =>
    let userMessage := pyStrip rawContent
    if userMessage = "" then
      ([WsEvent.errorEvent "Empty message"], some session)
    else
      match cacheLookup with
      | .error _ =>
        ([WsEvent.errorEvent "Failed to generate response. Please try again."],
         some session)
      | .ok (some cachedText) =>
        ([WsEvent.responseEvent cachedText true (some true)],
         some (add_message (add_message session "user" userMessage)
           "assistant" cachedText))
      | .ok none =>
        let progressEvents := (cumulative "" streamChunks).map
          (fun acc => WsEvent.responseEvent acc false none)
        match streamError with
        | some _ =>
          (progressEvents
            ++ [WsEvent.errorEvent "Failed to generate response. Please try again."],
           some session)
        | none =>
          let finalResponse := pyStrip (String.join streamChunks)
          match cacheStore with
          | .error _ =>
            (progressEvents
              ++ [WsEvent.responseEvent finalResponse true (some false)]
              ++ [WsEvent.errorEvent "Failed to generate response. Please try again."],
             some session)
          | .ok _ =>
            (progressEvents ++ [WsEvent.responseEvent finalResponse true (some false)],
             some (add_message (add_message session "user" userMessage)
               "assistant" finalResponse))

/-- C5: on a response-cache hit the turn emits exactly one response
event, with done and cached true and no progress events, and appends
the user turn and the cached assistant turn to the history. -/
theorem cache_hit_single_event (session : SessionData) (rawContent : String)
    (cachedText : String) (streamChunks : List String) (streamError : Option Unit)
    (cacheStore : Except Unit Unit)
    (hne : pyStrip rawContent ≠ "") :
    handle_chat_message (some session) rawContent (Except.ok (some cachedText))
        streamChunks streamError cacheStore
      = ([WsEvent.responseEvent cachedText true (some true)],
         some (add_message (add_message session "user" (pyStrip rawContent))
           "assistant" cachedText)) := by
  simp only [handle_chat_message]
  rw [if_neg hne]

/-- Witness for C5 at a concrete hit. -/
theorem cache_hit_single_event_witness :
    handle_chat_message (some (initialSession "u" "")) "hello"
        (Except.ok (some "answer")) [] none (Except.ok ())
      = ([WsEvent.responseEvent "answer" true (some true)],
         some (add_message (add_message (initialSession "u" "") "user" (pyStrip "hello"))
           "assistant" "answer")) :=
  cache_hit_single_event (initialSession "u" "") "hello" "answer" [] none
    (Except.ok ()) (by decide)

/-- History of an optional session. -/
def historyOf : Option SessionData → List ChatMsg
  | none => []
  | some s => s.conversation_history

/-- C10: a chat turn that emits an error event leaves the history
unchanged, and the history only ever changes by appending a (user,
assistant) pair alongside a done response event. -/
theorem chat_turn_history_discipline (sessionOpt : Option SessionData)
    (rawContent : String) (cacheLookup : Except Unit (Option String))
    (streamChunks : List String) (streamError : Option Unit)
    (cacheStore : Except Unit Unit) :
    ((∃ m, WsEvent.errorEvent m ∈ (handle_chat_message sessionOpt rawContent cacheLookup
        streamChunks streamError cacheStore).1) →
      historyOf (handle_chat_message sessionOpt rawContent cacheLookup
        streamChunks streamError cacheStore).2 = historyOf sessionOpt)
    ∧ (historyOf (handle_chat_message sessionOpt rawContent cacheLookup
        streamChunks streamError cacheStore).2 ≠ historyOf sessionOpt →
      ∃ s a flag, sessionOpt = some s
        ∧ (handle_chat_message sessionOpt rawContent cacheLookup
            streamChunks streamError cacheStore).2
          = some (add_message (add_message s "user" (pyStrip rawContent)) "assistant" a)
        ∧ WsEvent.responseEvent a true (some flag)
            ∈ (handle_chat_message sessionOpt rawContent cacheLookup
                streamChunks streamError cacheStore).1) := by
  cases sessionOpt with
  | none => exact ⟨fun _ => rfl, fun hne => absurd rfl hne⟩
  | some session =>
    simp only [handle_chat_message]
    by_cases hempty : pyStrip rawContent = ""
    · rw [if_pos hempty]
      exact ⟨fun _ => rfl, fun hne => absurd rfl hne⟩
    · rw [if_neg hempty]
      cases cacheLookup with
      | error u => exact ⟨fun _ => rfl, fun hne => absurd rfl hne⟩
      | ok lookup =>
        cases lookup with
        | some cachedText =>
          refine ⟨?_, ?_⟩
          · intro ⟨m, hm⟩
            simp at hm
          · intro _
            exact ⟨session, cachedText, true, rfl, rfl, List.mem_singleton.mpr rfl⟩
        | none =>
          cases streamError with
          | some u => exact ⟨fun _ => rfl, fun hne => absurd rfl hne⟩
          | none =>
            cases cacheStore with
            | error u => exact ⟨fun _ => rfl, fun hne => absurd rfl hne⟩
            | ok u =>
              refine ⟨?_, ?_⟩
              · intro ⟨m, hm⟩
                rcases List.mem_append.mp hm with h1 | h2
                · rcases List.mem_map.mp h1 with ⟨acc, _, habs⟩
                  cases habs
                · rcases List.mem_singleton.mp h2
              · intro _
                exact ⟨session, pyStrip (String.join streamChunks), false, rfl, rfl,
                  List.mem_append_right _ (List.mem_singleton.mpr rfl)⟩

/-- Witness for C10: the empty-input turn emits an error and leaves the
history unchanged. -/
theorem chat_turn_history_discipline_witness :
    historyOf (handle_chat_message (some (initialSession "u" "")) ""
        (Except.ok none) [] none (Except.ok ())).2
      = historyOf (some (initialSession "u" "")) :=
  (chat_turn_history_discipline (some (initialSession "u" "")) ""
    (Except.ok none) [] none (Except.ok ())).1 ⟨"Empty message", by decide⟩

/-! Embedding of the retry envelope of LLMClient.chat (client.py). -/

/-- Provider failure kinds.  The tenacity decorator of the source treats
every exception alike. -/
inductive LLMError
  | timeout
  | serverError (code : Nat)
  | invalidRequest
deriving DecidableEq

/-- retry_if_exception_type((Exception,)): every exception matches. -/
def retry_if_any_exception (_ : LLMError) : Bool := true

/-- wait_exponential(multiplier=1, min=2, max=10): the backoff before
the retry following failed attempt n, clamped between 2 and 10. -/
def wait_exponential (multiplier lo hi n : Nat) : Nat :=
  max lo (min (multiplier * 2 ^ n) hi)

/-- The tenacity retry loop under stop_after_attempt and reraise=True:
run attempt `attempt`; on an error matching the predicate retry while
retries remain (`fuel` counts the retries still allowed), else reraise.
Returns the outcome and the number of attempts made. -/
def tenacityRun {α : Type} (shouldRetry : LLMError → Bool)
    (call : Nat → Except LLMError α) : Nat → Nat → Except LLMError α × Nat
  | attempt, fuel =>
    match call attempt, fuel with
    | .ok a, _ => (.ok a, attempt)
    | .error e, 0 => (.error e, attempt)
    | .error e, f + 1 =>
      if shouldRetry e then tenacityRun shouldRetry call (attempt + 1) f
      else (.error e, attempt)

/-- LLMClient.chat's decorator: retry_if_exception_type((Exception,)),
stop_after_attempt(3), wait_exponential(multiplier=1, min=2, max=10),
reraise=True — the first attempt plus at most two retries, with every
error kind retried. -/
def chat_with_retries {α : Type} (call : Nat → Except LLMError α) :
    Except LLMError α × Nat :=
  tenacityRun retry_if_any_exception call 1 2

/-- C3 (amended): chat makes at most 3 attempts in total; a first-call
success returns immediately; when all three attempts fail — whatever
the error kind — the third error is reraised to the caller; and every
backoff wait is clamped between 2 and 10 seconds. -/
theorem chat_retry_policy {α : Type} (call : Nat → Except LLMError α) :
    (chat_with_retries call).2 ≤ 3
    ∧ (∀ a, call 1 = Except.ok a → chat_with_retries call = (Except.ok a, 1))
    ∧ (∀ e1 e2 e3, call 1 = Except.error e1 → call 2 = Except.error e2 →
        call 3 = Except.error e3 → chat_with_retries call = (Except.error e3, 3))
    ∧ ∀ n, 2 ≤ wait_exponential 1 2 10 n ∧ wait_exponential 1 2 10 n ≤ 10 := by
  refine ⟨?_, ?_, ?_, ?_⟩
  · cases h1 : call 1 with
    | ok a => simp [chat_with_retries, tenacityRun, h1]
    | error e1 =>
      cases h2 : call 2 with
      | ok a => simp [chat_with_retries, tenacityRun, retry_if_any_exception, h1, h2]
      | error e2 =>
        cases h3 : call 3 with
        | ok a => simp [chat_with_retries, tenacityRun, retry_if_any_exception, h1, h2, h3]
        | error e3 => simp [chat_with_retries, tenacityRun, retry_if_any_exception, h1, h2, h3]
  · intro a h1
    simp [chat_with_retries, tenacityRun, h1]
  · intro e1 e2 e3 h1 h2 h3
    simp [chat_with_retries, tenacityRun, retry_if_any_exception, h1, h2, h3]
  · intro n
    constructor
    · exact le_max_left _ _
    · exact max_le (by norm_num) (min_le_right _ _)

/-- Witness for C3 (amended) at a provider that times out on every
attempt: three attempts are made and the timeout is reraised. -/
theorem chat_retry_policy_witness :
    (chat_with_retries (fun _ => (Except.error LLMError.timeout : Except LLMError Unit))).2 ≤ 3
    ∧ chat_with_retries (fun _ => (Except.error LLMError.timeout : Except LLMError Unit))
        = (Except.error LLMError.timeout, 3) := by
  obtain ⟨h1, _, h3, _⟩ :=
    chat_retry_policy (fun _ => (Except.error LLMError.timeout : Except LLMError Unit))
  exact ⟨h1, h3 _ _ _ rfl rfl rfl⟩

/-- Counterexample to C3 as stated: a non-transient invalid-request
failure is retried rather than propagating immediately — the provider
is called 3 times, not once. -/
theorem chat_retry_counterexample :
    (chat_with_retries
        (fun _ => (Except.error LLMError.invalidRequest : Except LLMError Unit))).2 = 3
    ∧ (chat_with_retries
        (fun _ => (Except.error LLMError.invalidRequest : Except LLMError Unit))).2 ≠ 1 := by
  decide

/-! Embedding of EmbeddingService.embed_batch (embeddings.py). -/

/-- An embedding vector. -/
abbrev Vec := List ℚ

/-- model.encode on a batch (embed_batch_sync): one vector per text, in
order. -/
def embed_batch_sync (encode : String → Vec) (texts : List String) : List Vec :=
  texts.map encode

/-- Python dict with integer keys: last-write-wins is irrelevant here
because every key is inserted once; lookup finds the first binding. -/
def dictLookup {α : Type} (k : Nat) : List (Nat × α) → Option α
  | [] => none
  | (j, v) :: rest => if j = k then some v else dictLookup k rest

/-- enumerate(texts). -/
def enumerate (texts : List String) : List (Nat × String) :=
  (List.range texts.length).zip texts

/-- EmbeddingService.embed_batch: look every text up in the cache (the
per-position outcome of _get_from_cache is the `cache` argument),
collect the misses in order, embed them in one batch, then stitch the
cached and the fresh vectors back into input order by index. -/
def embed_batch (cache : Nat → Option Vec) (encode : String → Vec)
    (texts : List String) : List Vec :=
  let enum := enumerate texts
  let cachedResults := enum.filterMap (fun p => (cache p.1).map (fun v => (p.1, v)))
  let uncached := enum.filter (fun p => (cache p.1).isNone)
  let newEmbeddings :=
    (uncached.map Prod.fst).zip (embed_batch_sync encode (uncached.map Prod.snd))
  let results := cachedResults ++ newEmbeddings
  (List.range texts.length).map (fun i => (dictLookup i results).getD [])

theorem dictLookup_append_some {α : Type} {k : Nat} {l1 l2 : List (Nat × α)} {v : α}
    (h : dictLookup k l1 = some v) : dictLookup k (l1 ++ l2) = some v := by
  induction l1 with
  | nil => simp [dictLookup] at h
  | cons p rest ih =>
    cases p with
    | mk j w =>
      simp only [dictLookup, List.cons_append] at h ⊢
      by_cases hj : j = k
      · rw [if_pos hj] at h ⊢
        exact h
      · rw [if_neg hj] at h ⊢
        exact ih h

theorem dictLookup_append_none {α : Type} {k : Nat} {l1 : List (Nat × α)}
    (l2 : List (Nat × α)) (h : dictLookup k l1 = none) :
    dictLookup k (l1 ++ l2) = dictLookup k l2 := by
  induction l1 with
  | nil => simp
  | cons p rest ih =>
    cases p with
    | mk j w =>
      simp only [dictLookup, List.cons_append] at h ⊢
      by_cases hj : j = k
      · rw [if_pos hj] at h
        exact absurd h (by simp)
      · rw [if_neg hj] at h ⊢
        exact ih h

theorem dictLookup_eq_none_of_not_mem {α : Type} {k : Nat} {l : List (Nat × α)}
    (h : k ∉ l.map Prod.fst) : dictLookup k l = none := by
  induction l with
  | nil => rfl
  | cons p rest ih =>
    cases p with
    | mk j w =>
      simp only [List.map_cons, List.mem_cons] at h
      push_neg at h
      simp only [dictLookup]
      rw [if_neg (fun hjk => h.1 hjk.symm)]
      exact ih h.2

theorem cachedResults_keys_sub {α : Type} (cache : Nat → Option α)
    (es : List (Nat × String)) {i : Nat}
    (h : i ∈ (es.filterMap (fun p => (cache p.1).map (fun w => (p.1, w)))).map Prod.fst) :
    i ∈ es.map Prod.fst := by
  rcases List.mem_map.mp h with ⟨q, hq, hqi⟩
  rcases List.mem_filterMap.mp hq with ⟨p, hp, hmap⟩
  rcases Option.map_eq_some'.mp hmap with ⟨w, _, heq⟩
  have h1 : p.1 = i := by
    rw [← hqi, ← heq]
  exact h1 ▸ List.mem_map_of_mem Prod.fst hp

theorem dictLookup_stitch (cache : Nat → Option Vec) (encode : String → Vec) :
    ∀ (es : List (Nat × String)), (es.map Prod.fst).Nodup →
      ∀ i t, (i, t) ∈ es →
        dictLookup i
          ((es.filterMap (fun p => (cache p.1).map (fun v => (p.1, v))))
            ++ ((es.filter (fun p => (cache p.1).isNone)).map
              (fun p => (p.1, encode p.2))))
          = some ((cache i).getD (encode t)) := by
  intro es
  induction es with
  | nil => intro _ i t h; simp at h
  | cons p rest ih =>
    intro hnd i t hmem
    cases p with
    | mk j s =>
      simp only [List.map_cons, List.nodup_cons] at hnd
      obtain ⟨hj, hndrest⟩ := hnd
      rcases List.mem_cons.mp hmem with heq | hrest
      · have h1 : i = j := congrArg Prod.fst heq
        have h2 : t = s := congrArg Prod.snd heq
        subst h1
        subst h2
        cases hc : cache i with
        | some v =>
          simp only [List.filterMap_cons, List.filter_cons, hc, Option.map_some',
            Option.isNone_some, Bool.false_eq_true, if_false, List.cons_append,
            dictLookup, Option.getD_some]
          simp
        | none =>
          have hnone : dictLookup i
              (rest.filterMap (fun p => (cache p.1).map (fun v => (p.1, v)))) = none :=
            dictLookup_eq_none_of_not_mem
              (fun hmem2 => hj (cachedResults_keys_sub cache rest hmem2))
          simp only [List.filterMap_cons, List.filter_cons, hc, Option.map_none',
            Option.isNone_none, if_true, List.map_cons]
          rw [dictLookup_append_none _ hnone]
          simp [dictLookup]
      · have hij : i ≠ j := by
          intro h
          exact hj (h ▸ List.mem_map_of_mem Prod.fst hrest)
        have hji : ¬ j = i := fun h => hij h.symm
        cases hc : cache j with
        | some v =>
          simp only [List.filterMap_cons, List.filter_cons, hc, Option.map_some',
            Option.isNone_some, Bool.false_eq_true, if_false, List.cons_append,
            dictLookup]
          rw [if_neg hji]
          exact ih hndrest i t hrest
        | none =>
          simp only [List.filterMap_cons, List.filter_cons, hc, Option.map_none',
            Option.isNone_none, if_true, List.map_cons]
          cases hcr : dictLookup i
              (rest.filterMap (fun p => (cache p.1).map (fun v => (p.1, v)))) with
          | some v2 =>
            rw [dictLookup_append_some hcr]
            have hih := ih hndrest i t hrest
            rw [dictLookup_append_some hcr] at hih
            exact hih
          | none =>
            rw [dictLookup_append_none _ hcr]
            have hih := ih hndrest i t hrest
            rw [dictLookup_append_none _ hcr] at hih
            simp only [dictLookup]
            rw [if_neg hji]
            exact hih

/-- C6: embed_batch returns exactly one vector per input, in the same
order as the inputs: position i of the result holds the cached vector
when the cache hit at position i, else the freshly computed embedding
of texts[i]. -/
theorem embed_batch_order (cache : Nat → Option Vec) (encode : String → Vec)
    (texts : List String) :
    (embed_batch cache encode texts).length = texts.length
    ∧ ∀ i, (h : i < texts.length) →
        (embed_batch cache encode texts)[i]?
          = some ((cache i).getD (encode texts[i])) := by
  have hnew : (((enumerate texts).filter (fun p => (cache p.1).isNone)).map Prod.fst).zip
        (embed_batch_sync encode
          (((enumerate texts).filter (fun p => (cache p.1).isNone)).map Prod.snd))
      = ((enumerate texts).filter (fun p => (cache p.1).isNone)).map
          (fun p => (p.1, encode p.2)) := by
    rw [embed_batch_sync, List.map_map, List.zip_map']
    rfl
  constructor
  · simp [embed_batch]
  · intro i h
    have hkeys : ((enumerate texts).map Prod.fst).Nodup := by
      rw [enumerate, List.map_fst_zip _ _ (by simp)]
      exact List.nodup_range _
    have hmem : (i, texts[i]) ∈ enumerate texts := by
      have hi : i < ((List.range texts.length).zip texts).length := by
        rw [List.length_zip, List.length_range]
        simpa using h
      have hz : ((List.range texts.length).zip texts)[i] = (i, texts[i]) := by
        rw [List.getElem_zip, List.getElem_range]
      rw [enumerate, ← hz]
      exact List.getElem_mem hi
    have hstitch := dictLookup_stitch cache encode (enumerate texts) hkeys i texts[i] hmem
    unfold embed_batch
    simp only [hnew, List.getElem?_map, List.getElem?_range h, Option.map_some']
    rw [hstitch]
    simp

/-- A concrete cache hitting only at position 0. -/
def cacheW : Nat → Option Vec :=
  fun i => if i = 0 then some [mkRat 1 1] else none

/-- A concrete deterministic encoder. -/
def encodeW : String → Vec :=
  fun t => [mkRat (Int.ofNat t.length) 1]

/-- Witness for C6 on a two-element batch with a hit at position 0 and
a miss at position 1. -/
theorem embed_batch_order_witness :
    (embed_batch cacheW encodeW ["a", "bb"]).length = 2
    ∧ (embed_batch cacheW encodeW ["a", "bb"])[0]? = some [mkRat 1 1]
    ∧ (embed_batch cacheW encodeW ["a", "bb"])[1]? = some (encodeW "bb") := by
  obtain ⟨h1, h2⟩ := embed_batch_order cacheW encodeW ["a", "bb"]
  refine ⟨h1, ?_, ?_⟩
  · have := h2 0 (by decide)
    simpa [cacheW] using this
  · have := h2 1 (by decide)
    simpa [cacheW] using this

end WealthCoach
